import Mathlib

/-!
Verification development for the StockTracker repository.

The Python modules `threshold_checker.py`, `stock_fetcher.py` and `web_scraper.py`
are shallowly embedded below:

* Python `dict` values with string keys become insertion-ordered association
  lists (`dictLookup` / `dictInsert` model subscript read and assignment).
* Python `float` prices become `ℚ`; only order comparisons and exact decimal
  literals appear in the verified code paths, which rationals model exactly.
* Network effects are abstracted into explicit environments: each external
  call site is represented by a field returning `Except Unit …` (an exception
  or a value), and the embedding reproduces the `try`/`except` structure of
  the source around those call sites.
* `time.sleep` calls are not executed but recorded (as a list of durations or
  a count), so that pacing and backoff claims are about the recorded trace.
-/

set_option autoImplicit false
set_option linter.unusedVariables false

namespace StockTracker

/-! ### Python dictionaries

A `dict` with string keys, modelled as an insertion-ordered association list
without duplicate keys.  `dictLookup d k` models `d[k]` / `k in d`;
`dictInsert d k v` models the assignment `d[k] = v`, which overwrites in place
when the key is present and appends a new entry otherwise. -/

def dictLookup {α : Type} : List (String × α) → String → Option α
  | [], _ => none
  | (k', v) :: rest, k => if k' = k then some v else dictLookup rest k

def dictInsert {α : Type} : List (String × α) → String → α → List (String × α)
  | [], k, v => [(k, v)]
  | (k', v') :: rest, k, v =>
      if k' = k then (k', v) :: rest else (k', v') :: dictInsert rest k v

/-! ### threshold_checker.py -/

/-- One entry of `self.stocks` in `ThresholdChecker`: the JSON object for one
configured instrument.  `stock_config.get('symbol')` may be absent (`none`),
`stock_config.get('name', '')` defaults to the empty string, and the two
thresholds are optional numbers. -/
structure StockConfig where
  symbol : Option String
  name : String
  upper_threshold : Option ℚ
  lower_threshold : Option ℚ
deriving Repr, DecidableEq

/-- One violation record appended by `ThresholdChecker.check_thresholds`. -/
structure Violation where
  symbol : String
  name : String
  display_name : String
  current_price : ℚ
  threshold : ℚ
  threshold_type : String
  message : String
deriving Repr, DecidableEq

/-- Round `x` (a scaled price) to the nearest integer, ties to even — the
rounding used by Python `format` when rendering to a fixed number of decimal
places.  For the nonnegative inputs produced by `fmt4`, `x.num / x.den` is the
floor. -/
def roundHalfEven (x : ℚ) : ℤ :=
  let f := x.num / (x.den : ℤ)
  let r := x.num % (x.den : ℤ)
  if (x.den : ℤ) < 2 * r then f + 1
  else if 2 * r < (x.den : ℤ) then f
  else if f % 2 = 0 then f else f + 1

/-- Left-pad the decimal digits of `n` with zeros to width 4. -/
def natPad4 (n : ℕ) : String :=
  let s := toString n
  String.mk (List.replicate (4 - s.length) '0') ++ s

/-- Model of the Python format specifier `:.4f` applied to a price, on the
rational model of prices. -/
def fmt4 (q : ℚ) : String :=
  let sign := if q < 0 then "-" else ""
  let n := (roundHalfEven (|q| * 10000)).toNat
  sign ++ toString (n / 10000) ++ "." ++ natPad4 (n % 10000)

/-- `display_name = f"{name} ({symbol})" if name else symbol`
(a nonempty string is truthy). -/
def displayNameOf (name : String) (symbol : String) : String :=
  if name = "" then symbol else name ++ " (" ++ symbol ++ ")"

/-- The upper-threshold check of `check_thresholds` (threshold_checker.py
lines 67–77): one violation is appended exactly when
`upper_threshold is not None and upper_threshold > 0 and
current_price >= upper_threshold`. -/
def upperViolation (sc : StockConfig) (s : String) (p : ℚ) : List Violation :=
  match sc.upper_threshold with
  | none => []
  | some u =>
      if 0 < u ∧ u ≤ p then
        [{ symbol := s, name := sc.name, display_name := displayNameOf sc.name s,
           current_price := p, threshold := u, threshold_type := "upper",
           message := displayNameOf sc.name s ++ " reached $" ++ fmt4 p ++
             " (threshold: $" ++ fmt4 u ++ ")" }]
      else []

/-- The lower-threshold check of `check_thresholds` (threshold_checker.py
lines 81–91). -/
def lowerViolation (sc : StockConfig) (s : String) (p : ℚ) : List Violation :=
  match sc.lower_threshold with
  | none => []
  | some l =>
      if 0 < l ∧ p ≤ l then
        [{ symbol := s, name := sc.name, display_name := displayNameOf sc.name s,
           current_price := p, threshold := l, threshold_type := "lower",
           message := displayNameOf sc.name s ++ " dropped to $" ++ fmt4 p ++
             " (threshold: $" ++ fmt4 l ++ ")" }]
      else []

/-- The body of one iteration of the `for stock_config in self.stocks` loop:
skip when `symbol not in prices or prices[symbol] is None`, otherwise the
upper-threshold violation (if any) followed by the lower-threshold one. -/
def instrumentViolations (prices : List (String × Option ℚ)) (sc : StockConfig) :
    List Violation :=
  match sc.symbol with
  | none => []
  | some s =>
      match dictLookup prices s with
      | some (some p) => upperViolation sc s p ++ lowerViolation sc s p
      | _ => []

/-- The loop of `check_thresholds` with its `violations` accumulator: each
iteration appends the instrument's violations (upper first) to `acc`. -/
def checkGo (prices : List (String × Option ℚ)) :
    List StockConfig → List Violation → List Violation
  | [], acc => acc
  | sc :: rest, acc =>
      match sc.symbol with
      | none => checkGo prices rest acc
      | some s =>
          match dictLookup prices s with
          | some (some p) =>
              checkGo prices rest (acc ++ upperViolation sc s p ++ lowerViolation sc s p)
          | _ => checkGo prices rest acc

/-- `ThresholdChecker.check_thresholds(self, prices)` with `self.stocks = stocks`. -/
def check_thresholds (stocks : List StockConfig) (prices : List (String × Option ℚ)) :
    List Violation :=
  checkGo prices stocks []

/-- The `ThresholdChecker` object state: `config_path` and the loaded `stocks`
list. -/
structure CheckerState where
  config_path : String
  stocks : List StockConfig
deriving Repr, DecidableEq

/-- State-passing form of the `check_thresholds` loop: the `prices` dict is
threaded through every iteration (each subscript read returns the dict it read
from), so a mutation of the argument would be visible in the returned dict. -/
def checkGoSt : List (String × Option ℚ) → List StockConfig → List Violation →
    List Violation × List (String × Option ℚ)
  | prices, [], acc => (acc, prices)
  | prices, sc :: rest, acc =>
      match sc.symbol with
      | none => checkGoSt prices rest acc
      | some s =>
          match dictLookup prices s with
          | some (some p) =>
              checkGoSt prices rest (acc ++ upperViolation sc s p ++ lowerViolation sc s p)
          | _ => checkGoSt prices rest acc

/-- A call `checker.check_thresholds(prices)` observed together with the state
it leaves behind: the returned violation list, the checker object after the
call, and the `prices` dict after the call. -/
def check_thresholds_call (c : CheckerState) (prices : List (String × Option ℚ)) :
    List Violation × CheckerState × List (String × Option ℚ) :=
  let r := checkGoSt prices c.stocks []
  (r.1, c, r.2)

/-! ### web_scraper.py — `WebScraper._extract_price`

The price-text parser.  Python strings are modelled as `List Char` where the
scanning is character by character; the ASCII whitespace class stands in for
the regex class `\s` and `str.strip` (the scraped texts at issue are ASCII
apart from the currency sign `€`, which is removed first). -/

/-- The characters matched by the Python regex class `\s` (and stripped by
`str.strip`). -/
def isPySpace (c : Char) : Bool :=
  c = ' ' || c = '\t' || c = '\n' || c = '\x0d' || c = '\x0b' || c = '\x0c'

/-- `l.startsWith pat` on character lists. -/
def isPrefixOfChars : List Char → List Char → Bool
  | [], _ => true
  | _ :: _, [] => false
  | p :: ps, c :: cs => p = c && isPrefixOfChars ps cs

/-- Python `str.replace(a ++ b ++ c, '')` for a three-character pattern:
remove the non-overlapping occurrences, scanning left to right. -/
def removeTriple (a b c : Char) : List Char → List Char
  | x :: y :: z :: rest =>
      if x = a ∧ y = b ∧ z = c then removeTriple a b c rest
      else x :: removeTriple a b c (y :: z :: rest)
  | l => l

/-- `str.strip()` on a character list. -/
def stripChars (l : List Char) : List Char :=
  ((l.dropWhile isPySpace).reverse.dropWhile isPySpace).reverse

/-- Lines 190 of `_extract_price`:
`text.strip().replace('$', '').replace('€', '').replace('USD', '').replace('EUR', '')`.
Replacing a single-character pattern by the empty string removes every
occurrence of that character. -/
def removeCurrency (l : List Char) : List Char :=
  removeTriple 'E' 'U' 'R'
    (removeTriple 'U' 'S' 'D'
      (((stripChars l).filter (fun c => c ≠ '$')).filter (fun c => c ≠ '€')))

/-- One anchored match attempt of the regex `[\d\s]+[.,]\d+|[\d]+` at the head
of `l`, returning the matched characters and the remainder.

For the first alternative, `[\d\s]+` greedily takes the maximal run of
digit/whitespace characters; shortening the run on backtracking always leaves
a digit or whitespace character (never `.`/`,`) as the next character, so the
alternative succeeds iff the character right after the maximal run is `.` or
`,` followed by at least one digit, and `\d+` then takes the maximal digit
run.  Otherwise the second alternative matches a nonempty maximal digit run. -/
def regexMatchAt (l : List Char) : Option (List Char × List Char) :=
  let run := l.takeWhile (fun c => c.isDigit || isPySpace c)
  let rest := l.drop run.length
  let alt2 :=
    let ds := l.takeWhile Char.isDigit
    if ds = [] then none else some (ds, l.drop ds.length)
  if run = [] then alt2
  else
    match rest with
    | c :: r2 =>
        if c = '.' || c = ',' then
          let ds := r2.takeWhile Char.isDigit
          if ds = [] then alt2 else some (run ++ c :: ds, r2.drop ds.length)
        else alt2
    | [] => alt2

/-- `re.findall(r'[\d\s]+[.,]\d+|[\d]+', text)[0]`: scan positions left to
right and return the first position where the regex matches (`none` when the
list of matches is empty). -/
def firstMatch : List Char → Option (List Char)
  | [] => none
  | c :: rest =>
      match regexMatchAt (c :: rest) with
      | some (m, _) => some m
      | none => firstMatch rest

/-- `price_str.rindex(c)` when present: the largest index holding `c`. -/
def lastIndexOf (l : List Char) (c : Char) : Option ℕ :=
  ((l.enum.filter (fun p => p.2 = c)).map Prod.fst).getLast?

/-- Lines 207–217 of `_extract_price`: the decimal/thousands separator
disambiguation on the cleaned match. -/
def handleSeparators (l : List Char) : List Char :=
  if l.contains ',' ∧ l.contains '.' then
    match lastIndexOf l ',', lastIndexOf l '.' with
    | some i, some j =>
        if j < i then
          (l.filter (fun c => c ≠ '.')).map (fun c => if c = ',' then '.' else c)
        else l.filter (fun c => c ≠ ',')
    | _, _ => l
  else if l.contains ',' then l.map (fun c => if c = ',' then '.' else c)
  else l

/-- Digit run to a natural number. -/
def digitsToNat (l : List Char) : ℕ :=
  l.foldl (fun n c => n * 10 + (c.toNat - '0'.toNat)) 0

/-- The digit content of an unsigned decimal string accepted by Python
`float`: the combined digit value and the number of fractional digits, so that
the parsed value is `value / 10 ^ fracDigits`.  Accepts the forms that can
reach `float` here (`digits`, `digits.digits`, `.digits`, `digits.`); on any
other string `float` raises `ValueError`, which `_extract_price` catches and
turns into `None`, so the result is an `Option`. -/
def pyFloatParts (l : List Char) : Option (ℕ × ℕ) :=
  let ip := l.takeWhile Char.isDigit
  let rest := l.drop ip.length
  match rest with
  | [] => if ip = [] then none else some (digitsToNat ip, 0)
  | '.' :: fp =>
      if fp.all Char.isDigit ∧ (ip ≠ [] ∨ fp ≠ []) then
        some (digitsToNat (ip ++ fp), fp.length)
      else none
  | _ => none

/-- Python `float(price_str)` on the strings reachable here, as a rational:
`intpart.fracpart` denotes `digits(intpart ++ fracpart) / 10 ^ |fracpart|`. -/
def pyFloat (l : List Char) : Option ℚ :=
  (pyFloatParts l).map (fun nk => (nk.1 : ℚ) / 10 ^ nk.2)

namespace WebScraper

/-- `WebScraper._extract_price(self, text)`. -/
def extract_price (text : String) : Option ℚ :=
  match firstMatch (removeCurrency text.data) with
  | none => none
  | some m =>
      pyFloat (handleSeparators ((stripChars m).filter (fun c => c ≠ ' ')))

end WebScraper

/-! #### `WebScraper.get_stock_price` — the fallback over sources

Each scraping adapter (`get_price_from_google_finance`, `…_marketwatch`,
`…_boursorama`) performs network calls, so it is abstracted as an environment
field `String → Except Unit (Option ℚ)`: for a given symbol it either raises
(`error`) or returns an optional price.  (Each adapter catches its own
exceptions and returns `None`, so `error` can only arise from an adapter
misbehaving; the fallback loop guards against it with its own `try`.) -/

structure ScraperEnv where
  google : String → Except Unit (Option ℚ)
  marketwatch : String → Except Unit (Option ℚ)
  boursorama : String → Except Unit (Option ℚ)

/-- The dispatch inside the `for source in sources` loop (web_scraper.py lines
241–249).  An unknown source string is logged and skipped (`continue`), which
is observationally the same as completing with `None`. -/
def sourceResult (env : ScraperEnv) (symbol : String) (src : String) :
    Except Unit (Option ℚ) :=
  if src = "google" then env.google symbol
  else if src = "marketwatch" then env.marketwatch symbol
  else if src = "boursorama" then env.boursorama symbol
  else Except.ok none

/-- The `for source in sources` loop of `WebScraper.get_stock_price`: a raised
exception is caught and the loop continues; a `None` price continues; the
first non-`None` price is returned; an exhausted list yields `None`. -/
def getStockPriceGo (env : ScraperEnv) (symbol : String) : List String → Option ℚ
  | [] => none
  | src :: rest =>
      match sourceResult env symbol src with
      | Except.ok (some p) => some p
      | _ => getStockPriceGo env symbol rest

def default_sources : List String := ["google", "marketwatch", "boursorama"]

/-- `WebScraper.get_stock_price(self, symbol, sources=None)`. -/
def get_stock_price_ws (env : ScraperEnv) (symbol : String)
    (sources : Option (List String)) : Option ℚ :=
  getStockPriceGo env symbol (sources.getD default_sources)

/-- What one source contributes to the fallback: its price when it completes
with one, and nothing when it raises or completes with `None`. -/
def sourceYield (env : ScraperEnv) (symbol : String) (src : String) : Option ℚ :=
  match sourceResult env symbol src with
  | Except.ok (some p) => some p
  | _ => none

/-! ### stock_fetcher.py — `StockFetcher.get_stock_price`

The yfinance calls of one ticker are abstracted as an environment indexed by
the attempt number:

* `tickerInit attempt` — the statements before the period loop
  (`yf.Ticker(symbol)` and the session-header assignment); an exception here
  is caught by the outer `except` of the attempt.
* `history attempt period` — `ticker.history(period=period)`, as the `Close`
  column of the returned frame (`[]` for an empty frame), or an exception.
* `info attempt` — the `ticker.info` dict restricted to its numeric entries,
  or an exception.  An empty dict is falsy, so both `info and '…' in info`
  guards fail on it.

Exceptions raised by these calls are all caught inside the attempt (lines
76–99 and the outer `except` at 107), so an attempt as a whole yields an
`Option ℚ`; `time.sleep` is recorded in a duration trace instead of running. -/

structure TickerEnv where
  tickerInit : ℕ → Except Unit Unit
  history : ℕ → String → Except Unit (List ℚ)
  info : ℕ → Except Unit (List (String × ℚ))

/-- The `for period in ['1d', '5d', '1mo']` loop: on an exception for a
period, log at debug level and try the next; on a non-empty frame return its
last close (`data['Close'].iloc[-1]`); on an empty frame fall through to the
next period. -/
def tryPeriods (env : TickerEnv) (attempt : ℕ) : List String → Option ℚ
  | [] => none
  | period :: rest =>
      match env.history attempt period with
      | Except.error _ => tryPeriods env attempt rest
      | Except.ok closes =>
          match closes.getLast? with
          | some c => some c
          | none => tryPeriods env attempt rest

/-- The `info` fallback within one attempt (lines 88–99): `currentPrice`
first, then `regularMarketPrice`; an exception or an empty/entry-less dict
yields nothing. -/
def infoFallback (env : TickerEnv) (attempt : ℕ) : Option ℚ :=
  match env.info attempt with
  | Except.error _ => none
  | Except.ok d =>
      if d = [] then none
      else
        match dictLookup d "currentPrice" with
        | some v => some v
        | none =>
            match dictLookup d "regularMarketPrice" with
            | some v => some v
            | none => none

def periods : List String := ["1d", "5d", "1mo"]

/-- What one attempt of the retry loop yields: the period loop first, then the
`info` fallback; any exception inside the attempt is caught (the outer
`except` at line 107 turns it into a failed attempt). -/
def apiAttempt (env : TickerEnv) (attempt : ℕ) : Option ℚ :=
  match env.tickerInit attempt with
  | Except.error _ => none
  | Except.ok _ =>
      match tryPeriods env attempt periods with
      | some p => some p
      | none => infoFallback env attempt

/-- The `for attempt in range(retry_count)` loop, structurally recursive on
the number of remaining iterations (`fuel`, with `attempt + fuel =
retry_count` at every call).  A failed attempt sleeps `2 ** attempt` seconds
when `attempt < retry_count - 1` (both on the no-data path, line 105, and on
the exception path, line 110); the sleep durations are recorded in order. -/
def apiLoopGo (env : TickerEnv) (retry_count : ℕ) :
    ℕ → ℕ → List ℕ → Option ℚ × List ℕ
  | 0, _, sleeps => (none, sleeps)
  | fuel + 1, attempt, sleeps =>
      match apiAttempt env attempt with
      | some p => (some p, sleeps)
      | none =>
          apiLoopGo env retry_count fuel (attempt + 1)
            (if attempt < retry_count - 1 then sleeps ++ [2 ^ attempt] else sleeps)

/-- The configuration bits of a `StockFetcher` object that
`get_stock_price` branches on. -/
structure FetcherState where
  use_web_scraping : Bool
  has_web_scraper : Bool
deriving Repr, DecidableEq

/-- A Python exception escaping an embedded function. -/
inductive PyErr
  | typeError
deriving Repr, DecidableEq

namespace StockFetcher

/-- `StockFetcher.get_stock_price(self, symbol, retry_count=3, name='')`,
returning the result (or the exception that escapes) together with the trace
of backoff sleep durations.

When `self.use_web_scraping and self.web_scraper` holds, line 62 executes
`self.web_scraper.get_stock_price(symbol, name=name)`; but
`WebScraper.get_stock_price` is declared as `def get_stock_price(self, symbol,
sources=None)` — it has no `name` parameter and no `**kwargs` — so the call
raises `TypeError: get_stock_price() got an unexpected keyword argument
'name'` before the scraper body runs.  Lines 60–65 are not inside any `try`,
so the `TypeError` escapes `StockFetcher.get_stock_price`.  Otherwise the
yfinance retry loop runs with every exception caught. -/
def get_stock_price (st : FetcherState) (env : TickerEnv) (symbol : String)
    (retry_count : ℕ) (name : String) : Except PyErr (Option ℚ) × List ℕ :=
  if st.use_web_scraping && st.has_web_scraper then
    (Except.error PyErr.typeError, [])
  else
    let r := apiLoopGo env retry_count retry_count 0 []
    (Except.ok r.1, r.2)

/-- `StockFetcher.get_multiple_prices`, with the per-call price oracle
`fetchOne i s` standing for the value the `i`-th `self.get_stock_price` call
returns (so two calls for the same symbol may differ).  The loop body over
`enumerate(symbols)` assigns `prices[symbol] = …` and then sleeps 3 seconds
unless `i == len(symbols) - 1`.  Returned: the `prices` dict, the number of
pacing sleeps executed, and the trace of symbols passed to fetch calls. -/
def getMultiplePricesGo (fetchOne : ℕ → String → Option ℚ) (total : ℕ) :
    List String → ℕ → List (String × Option ℚ) →
    List (String × Option ℚ) × ℕ × List String
  | [], _, prices => (prices, 0, [])
  | s :: rest, i, prices =>
      let prices1 := dictInsert prices s (fetchOne i s)
      let r := getMultiplePricesGo fetchOne total rest (i + 1) prices1
      (r.1, (if i < total - 1 then 1 else 0) + r.2.1, s :: r.2.2)

def get_multiple_prices (fetchOne : ℕ → String → Option ℚ) (symbols : List String) :
    List (String × Option ℚ) × ℕ × List String :=
  getMultiplePricesGo fetchOne symbols.length symbols 0 []

end StockFetcher

/-- The position of the last occurrence of `s` in the list, counting from
start index `i` — the loop index whose assignment `prices[s] = …` survives in
the dict `get_multiple_prices` returns. -/
def lastIdxFrom : List String → ℕ → String → Option ℕ
  | [], _, _ => none
  | x :: rest, i, s =>
      match lastIdxFrom rest (i + 1) s with
      | some j => some j
      | none => if x = s then some i else none

/-! ### Concrete environments used to instantiate the claims -/

/-- The P4 environment: the first two sources raise internally, the third
returns `42.0`. -/
def envP4 : ScraperEnv :=
  { google := fun _ => Except.error (),
    marketwatch := fun _ => Except.error (),
    boursorama := fun _ => Except.ok (some 42) }

/-- An environment where every attempt finds no data: empty frames for every
period and an empty `info` dict. -/
def envNoData : TickerEnv :=
  { tickerInit := fun _ => Except.ok (),
    history := fun _ _ => Except.ok [],
    info := fun _ => Except.ok [] }

/-- An environment whose attempts 0 and 1 yield nothing and whose attempt 2
succeeds with price 100. -/
def envFailTwice : TickerEnv :=
  { tickerInit := fun _ => Except.ok (),
    history := fun attempt period =>
      if attempt = 2 ∧ period = "1d" then Except.ok [100] else Except.ok [],
    info := fun _ => Except.ok [] }

/-! ### Claim about the price-text parser -/

/-- Claim C2, evaluated on the code at the P6 inputs.  The regex
`[\d\s]+[.,]\d+|[\d]+` admits at most one separator per match, so on
`"1.234,56 EUR"` the first match is `1.234` and the parse returns the value
`1.234` — not `1234.56` as the claim (and the code's own comment "Pattern
matches: 123.45, 123,45, 1,234.56, 1.234,56", lines 193–194) state — and on
`"1,234.56"` the first match is `1,234`, which again parses to `1.234`.  The
other two P6 equations hold as claimed. -/
theorem extract_price_p6_eval :
    WebScraper.extract_price "1.234,56 EUR" = some (617 / 500) ∧
    WebScraper.extract_price "1,234.56" = some (617 / 500) ∧
    WebScraper.extract_price "175,50" = some (351 / 2) ∧
    WebScraper.extract_price "not a price" = none ∧
    (617 / 500 : ℚ) = 1.234 ∧ (617 / 500 : ℚ) ≠ 1234.56 := by
  refine ⟨?_, ?_, ?_, ?_, by norm_num, by norm_num⟩
  · have h1 : firstMatch (removeCurrency ("1.234,56 EUR").data)
        = some ['1', '.', '2', '3', '4'] := by decide
    have h2 : pyFloatParts (handleSeparators
        ((stripChars ['1', '.', '2', '3', '4']).filter (fun c => c ≠ ' ')))
        = some (1234, 3) := by decide
    simp only [WebScraper.extract_price, h1, pyFloat, h2, Option.map_some',
      Option.some.injEq]
    norm_num
  · have h1 : firstMatch (removeCurrency ("1,234.56").data)
        = some ['1', ',', '2', '3', '4'] := by decide
    have h2 : pyFloatParts (handleSeparators
        ((stripChars ['1', ',', '2', '3', '4']).filter (fun c => c ≠ ' ')))
        = some (1234, 3) := by decide
    simp only [WebScraper.extract_price, h1, pyFloat, h2, Option.map_some',
      Option.some.injEq]
    norm_num
  · have h1 : firstMatch (removeCurrency ("175,50").data)
        = some ['1', '7', '5', ',', '5', '0'] := by decide
    have h2 : pyFloatParts (handleSeparators
        ((stripChars ['1', '7', '5', ',', '5', '0']).filter (fun c => c ≠ ' ')))
        = some (17550, 2) := by decide
    simp only [WebScraper.extract_price, h1, pyFloat, h2, Option.map_some',
      Option.some.injEq]
    norm_num
  · have h1 : firstMatch (removeCurrency ("not a price").data) = none := by decide
    simp only [WebScraper.extract_price, h1]

/-! ### Helper lemmas about the threshold checker -/

theorem instrumentViolations_of_price {prices : List (String × Option ℚ)}
    {sc : StockConfig} {s : String} {p : ℚ} (hs : sc.symbol = some s)
    (hp : dictLookup prices s = some (some p)) :
    instrumentViolations prices sc = upperViolation sc s p ++ lowerViolation sc s p := by
  simp only [instrumentViolations, hs, hp]

theorem checkGo_eq_flatMap (prices : List (String × Option ℚ)) :
    ∀ (stocks : List StockConfig) (acc : List Violation),
      checkGo prices stocks acc = acc ++ stocks.flatMap (instrumentViolations prices)
  | [], acc => by simp [checkGo]
  | sc :: rest, acc => by
      cases hs : sc.symbol with
      | none =>
          simp [checkGo, hs, checkGo_eq_flatMap prices rest acc, instrumentViolations]
      | some s =>
          cases hp : dictLookup prices s with
          | none =>
              simp [checkGo, hs, hp, checkGo_eq_flatMap prices rest acc,
                instrumentViolations]
          | some op =>
              cases op with
              | none =>
                  simp [checkGo, hs, hp, checkGo_eq_flatMap prices rest acc,
                    instrumentViolations]
              | some p =>
                  simp [checkGo, hs, hp, checkGo_eq_flatMap prices rest _,
                    instrumentViolations]

/-- The run of `check_thresholds` is the concatenation, in declaration order,
of the per-instrument violation lists. -/
theorem check_thresholds_flatMap (stocks : List StockConfig)
    (prices : List (String × Option ℚ)) :
    check_thresholds stocks prices = stocks.flatMap (instrumentViolations prices) := by
  simpa using checkGo_eq_flatMap prices stocks []

theorem mem_upperViolation_type {sc : StockConfig} {s : String} {p : ℚ}
    {v : Violation} (h : v ∈ upperViolation sc s p) : v.threshold_type = "upper" := by
  cases hu : sc.upper_threshold with
  | none => simp [upperViolation, hu] at h
  | some u =>
      by_cases hc : 0 < u ∧ u ≤ p
      · simp only [upperViolation, hu, if_pos hc, List.mem_singleton] at h
        rw [h]
      · simp [upperViolation, hu, hc] at h

theorem mem_lowerViolation_type {sc : StockConfig} {s : String} {p : ℚ}
    {v : Violation} (h : v ∈ lowerViolation sc s p) : v.threshold_type = "lower" := by
  cases hl : sc.lower_threshold with
  | none => simp [lowerViolation, hl] at h
  | some l =>
      by_cases hc : 0 < l ∧ p ≤ l
      · simp only [lowerViolation, hl, if_pos hc, List.mem_singleton] at h
        rw [h]
      · simp [lowerViolation, hl, hc] at h

theorem upperViolation_fires_iff (sc : StockConfig) (s : String) (p : ℚ) :
    (∃ v ∈ upperViolation sc s p, v.threshold_type = "upper") ↔
      ∃ u, sc.upper_threshold = some u ∧ 0 < u ∧ u ≤ p := by
  cases hu : sc.upper_threshold with
  | none => simp [upperViolation, hu]
  | some u =>
      by_cases hc : 0 < u ∧ u ≤ p
      · simp [upperViolation, hu, hc]
      · constructor
        · rintro ⟨v, hv, -⟩
          simp [upperViolation, hu, hc] at hv
        · rintro ⟨u', hu', h1, h2⟩
          injection hu' with h'
          subst h'
          exact absurd ⟨h1, h2⟩ hc

theorem lowerViolation_fires_iff (sc : StockConfig) (s : String) (p : ℚ) :
    (∃ v ∈ lowerViolation sc s p, v.threshold_type = "lower") ↔
      ∃ l, sc.lower_threshold = some l ∧ 0 < l ∧ p ≤ l := by
  cases hl : sc.lower_threshold with
  | none => simp [lowerViolation, hl]
  | some l =>
      by_cases hc : 0 < l ∧ p ≤ l
      · simp [lowerViolation, hl, hc]
      · constructor
        · rintro ⟨v, hv, -⟩
          simp [lowerViolation, hl, hc] at hv
        · rintro ⟨l', hl', h1, h2⟩
          injection hl' with h'
          subst h'
          exact absurd ⟨h1, h2⟩ hc

theorem checkGoSt_eq (prices : List (String × Option ℚ)) :
    ∀ (stocks : List StockConfig) (acc : List Violation),
      checkGoSt prices stocks acc = (checkGo prices stocks acc, prices)
  | [], acc => by simp [checkGoSt, checkGo]
  | sc :: rest, acc => by
      cases hs : sc.symbol with
      | none => simp only [checkGoSt, checkGo, hs, checkGoSt_eq prices rest acc]
      | some s =>
          cases hp : dictLookup prices s with
          | none => simp only [checkGoSt, checkGo, hs, hp, checkGoSt_eq prices rest acc]
          | some op =>
              cases op with
              | none => simp only [checkGoSt, checkGo, hs, hp, checkGoSt_eq prices rest acc]
              | some p => simp only [checkGoSt, checkGo, hs, hp, checkGoSt_eq prices rest _]

/-! ### Claims about the threshold checker -/

/-- Claim C1: for every instrument whose symbol maps to a present price `p` in
the price dict, `check_thresholds` emits an upper violation for it iff
`upper_threshold` is set, positive, and `p ≥ upper_threshold` (boundary
inclusive), and a lower violation iff `lower_threshold` is set, positive, and
`p ≤ lower_threshold`; an absent, zero or negative threshold never fires.
The first conjunct identifies the full run with the per-instrument emissions
in declaration order. -/
theorem check_thresholds_threshold_iff :
    (∀ (stocks : List StockConfig) (prices : List (String × Option ℚ)),
      check_thresholds stocks prices = stocks.flatMap (instrumentViolations prices)) ∧
    (∀ (prices : List (String × Option ℚ)) (sc : StockConfig) (s : String) (p : ℚ),
      sc.symbol = some s → dictLookup prices s = some (some p) →
      ((∃ v ∈ instrumentViolations prices sc, v.threshold_type = "upper") ↔
        ∃ u, sc.upper_threshold = some u ∧ 0 < u ∧ u ≤ p) ∧
      ((∃ v ∈ instrumentViolations prices sc, v.threshold_type = "lower") ↔
        ∃ l, sc.lower_threshold = some l ∧ 0 < l ∧ p ≤ l)) := by
  refine ⟨check_thresholds_flatMap, fun prices sc s p hs hp => ⟨?_, ?_⟩⟩
  · rw [← upperViolation_fires_iff sc s p]
    constructor
    · rintro ⟨v, hv, ht⟩
      rw [instrumentViolations_of_price hs hp] at hv
      rcases List.mem_append.1 hv with h | h
      · exact ⟨v, h, ht⟩
      · rw [mem_lowerViolation_type h] at ht; exact absurd ht (by decide)
    · rintro ⟨v, hv, ht⟩
      exact ⟨v, by
        rw [instrumentViolations_of_price hs hp]
        exact List.mem_append.2 (Or.inl hv), ht⟩
  · rw [← lowerViolation_fires_iff sc s p]
    constructor
    · rintro ⟨v, hv, ht⟩
      rw [instrumentViolations_of_price hs hp] at hv
      rcases List.mem_append.1 hv with h | h
      · rw [mem_upperViolation_type h] at ht; exact absurd ht (by decide)
      · exact ⟨v, h, ht⟩
    · rintro ⟨v, hv, ht⟩
      exact ⟨v, by
        rw [instrumentViolations_of_price hs hp]
        exact List.mem_append.2 (Or.inr hv), ht⟩

/-- Witness for C1 at the spec's end-to-end scenario: AAPL at 205 with upper
threshold 200 fires an upper violation; the hypotheses are discharged at the
concrete instrument and price dict. -/
theorem check_thresholds_threshold_iff_witness :
    ∃ v ∈ instrumentViolations [("AAPL", some 205)]
      { symbol := some "AAPL", name := "", upper_threshold := some 200,
        lower_threshold := some 150 }, v.threshold_type = "upper" :=
  ((check_thresholds_threshold_iff.2 [("AAPL", some 205)]
      { symbol := some "AAPL", name := "", upper_threshold := some 200,
        lower_threshold := some 150 } "AAPL" 205 rfl (by decide)).1).mpr
    ⟨200, rfl, by norm_num, by norm_num⟩

/-- Claim C5: an instrument whose symbol is absent from the price dict, or
maps to `None`, contributes zero violations: its per-instrument list is empty
and deleting it from the configured list does not change the output. -/
theorem check_thresholds_missing_price_skip
    (prices : List (String × Option ℚ)) (sc : StockConfig)
    (h : ∀ s, sc.symbol = some s →
      dictLookup prices s = none ∨ dictLookup prices s = some none) :
    instrumentViolations prices sc = [] ∧
    ∀ (pre post : List StockConfig),
      check_thresholds (pre ++ sc :: post) prices
        = check_thresholds (pre ++ post) prices := by
  have hiv : instrumentViolations prices sc = [] := by
    cases hs : sc.symbol with
    | none => simp [instrumentViolations, hs]
    | some s => rcases h s hs with h' | h' <;> simp [instrumentViolations, hs, h']
  refine ⟨hiv, fun pre post => ?_⟩
  rw [check_thresholds_flatMap, check_thresholds_flatMap]
  simp [hiv]

/-- Witness for C5: MSFT's price is `None` in the dict, so the MSFT instrument
is skipped and deleting it changes nothing. -/
theorem check_thresholds_missing_price_skip_witness :
    instrumentViolations [("MSFT", none)]
      { symbol := some "MSFT", name := "", upper_threshold := some 100,
        lower_threshold := some 50 } = [] ∧
    check_thresholds
      [{ symbol := some "MSFT", name := "", upper_threshold := some 100,
         lower_threshold := some 50 }] [("MSFT", none)]
      = check_thresholds [] [("MSFT", none)] := by
  have h := check_thresholds_missing_price_skip [("MSFT", none)]
    { symbol := some "MSFT", name := "", upper_threshold := some 100,
      lower_threshold := some 50 }
    (by rintro s hs; injection hs with h'; subst h'; right; rfl)
  exact ⟨h.1, by simpa using h.2 [] []⟩

/-- Claim C8: the violation list is ordered by instrument declaration order
(the run is the concatenation of the per-instrument lists), and within one
instrument the threshold-kind trace is a sublist of `["upper", "lower"]`, so
when both thresholds fire the upper violation is appended first. -/
theorem check_thresholds_output_order :
    (∀ (stocks : List StockConfig) (prices : List (String × Option ℚ)),
      check_thresholds stocks prices = stocks.flatMap (instrumentViolations prices)) ∧
    (∀ (prices : List (String × Option ℚ)) (sc : StockConfig),
      List.Sublist ((instrumentViolations prices sc).map Violation.threshold_type)
        ["upper", "lower"]) := by
  refine ⟨check_thresholds_flatMap, fun prices sc => ?_⟩
  cases hs : sc.symbol with
  | none => simp [instrumentViolations, hs]
  | some s =>
      cases hp : dictLookup prices s with
      | none => simp [instrumentViolations, hs, hp]
      | some op =>
          cases op with
          | none => simp [instrumentViolations, hs, hp]
          | some p =>
              rw [instrumentViolations_of_price hs hp, List.map_append]
              have hu : (upperViolation sc s p).map Violation.threshold_type = []
                  ∨ (upperViolation sc s p).map Violation.threshold_type = ["upper"] := by
                cases hu' : sc.upper_threshold with
                | none => left; simp [upperViolation, hu']
                | some u =>
                    by_cases hc : 0 < u ∧ u ≤ p
                    · right; simp [upperViolation, hu', hc]
                    · left; simp [upperViolation, hu', hc]
              have hl : (lowerViolation sc s p).map Violation.threshold_type = []
                  ∨ (lowerViolation sc s p).map Violation.threshold_type = ["lower"] := by
                cases hl' : sc.lower_threshold with
                | none => left; simp [lowerViolation, hl']
                | some l =>
                    by_cases hc : 0 < l ∧ p ≤ l
                    · right; simp [lowerViolation, hl', hc]
                    · left; simp [lowerViolation, hl', hc]
              rcases hu with hu | hu <;> rcases hl with hl | hl <;>
                rw [hu, hl] <;> decide

/-! ### Helper lemmas and claims about the fallback fetch over sources -/

theorem getStockPriceGo_eq_findSome (env : ScraperEnv) (symbol : String) :
    ∀ sources : List String,
      getStockPriceGo env symbol sources = sources.findSome? (sourceYield env symbol)
  | [] => rfl
  | src :: rest => by
      rw [List.findSome?_cons]
      cases h : sourceResult env symbol src with
      | error e =>
          simp only [getStockPriceGo, h, sourceYield]
          exact getStockPriceGo_eq_findSome env symbol rest
      | ok op =>
          cases op with
          | none =>
              simp only [getStockPriceGo, h, sourceYield]
              exact getStockPriceGo_eq_findSome env symbol rest
          | some p => simp only [getStockPriceGo, h, sourceYield]

/-- Claim C6: the fallback over the ordered source list returns the price of
the first source that completes with a non-`None` price; a raising source is
skipped by the per-source exception handler, so it does not prevent trying the
next source; and when every source raises or returns `None` the overall result
is `None`. -/
theorem ws_get_stock_price_fallback :
    (∀ (env : ScraperEnv) (symbol : String) (sources : List String),
      get_stock_price_ws env symbol (some sources)
        = sources.findSome? (sourceYield env symbol)) ∧
    (∀ (env : ScraperEnv) (symbol src : String) (rest : List String),
      sourceResult env symbol src = Except.error () →
      getStockPriceGo env symbol (src :: rest) = getStockPriceGo env symbol rest) ∧
    (∀ (env : ScraperEnv) (symbol : String) (sources : List String),
      (∀ src ∈ sources, sourceYield env symbol src = none) →
      get_stock_price_ws env symbol (some sources) = none) := by
  refine ⟨fun env symbol sources => ?_, fun env symbol src rest h => ?_,
    fun env symbol sources h => ?_⟩
  · simpa [get_stock_price_ws] using getStockPriceGo_eq_findSome env symbol sources
  · simp only [getStockPriceGo, h]
  · rw [get_stock_price_ws]
    simp only [Option.getD_some]
    rw [getStockPriceGo_eq_findSome env symbol sources]
    exact List.findSome?_eq_none_iff.2 h

/-- Witness for C6 at P4: with `google` and `marketwatch` raising and
`boursorama` returning `42.0`, the fetch returns `42.0`, and the raising first
source is dropped from the loop. -/
theorem ws_get_stock_price_fallback_witness :
    get_stock_price_ws envP4 "AAPL" (some default_sources) = some 42 ∧
    getStockPriceGo envP4 "AAPL" ("google" :: ["marketwatch", "boursorama"])
      = getStockPriceGo envP4 "AAPL" ["marketwatch", "boursorama"] := by
  constructor
  · rw [ws_get_stock_price_fallback.1 envP4 "AAPL" default_sources]
    rfl
  · exact ws_get_stock_price_fallback.2.1 envP4 "AAPL" "google"
      ["marketwatch", "boursorama"] rfl

/-! ### Helper lemmas and claims about the retrying fetcher -/

/-- Claim C3, settled against the code: with the scraping mode configured and
the scraper available, `StockFetcher.get_stock_price` raises `TypeError` past
its boundary (the keyword call `self.web_scraper.get_stock_price(symbol,
name=name)` does not match `WebScraper.get_stock_price(self, symbol,
sources=None)` and lines 60–65 are outside any `try`), so the claimed
never-raises property fails; on the non-scraping path the retry loop indeed
never lets an exception escape and completes with a value. -/
theorem get_stock_price_scraping_raises :
    (StockFetcher.get_stock_price
        { use_web_scraping := true, has_web_scraper := true } envNoData
        "AAPL" 3 "Apple").1 = Except.error PyErr.typeError ∧
    (∀ (st : FetcherState) (env : TickerEnv) (symbol name : String) (rc : ℕ),
      st.use_web_scraping = false →
      ∃ r, (StockFetcher.get_stock_price st env symbol rc name).1 = Except.ok r) := by
  constructor
  · rfl
  · intro st env symbol name rc h
    simp only [StockFetcher.get_stock_price, h, Bool.false_and, Bool.false_eq_true,
      if_false]
    exact ⟨_, rfl⟩

/-- Witness for C3's general conjunct at a concrete configuration: with the
scraping mode off, the fetch completes without raising. -/
theorem get_stock_price_scraping_raises_witness :
    ∃ r, (StockFetcher.get_stock_price
        { use_web_scraping := false, has_web_scraper := false } envNoData
        "AAPL" 3 "").1 = Except.ok r :=
  get_stock_price_scraping_raises.2
    { use_web_scraping := false, has_web_scraper := false } envNoData "AAPL" "" 3 rfl

/-- Counterexample to claim C4 as stated: with `retry_count = 3` and a source
failing on attempts 0 and 1 and succeeding on attempt 2, the fetch returns the
successful value but the recorded sleep trace is `[1, 2]` — the wait before
the 3rd attempt is 2 seconds (the last recorded sleep), not 4 seconds. -/
theorem get_stock_price_backoff_cex :
    StockFetcher.get_stock_price
        { use_web_scraping := false, has_web_scraper := false } envFailTwice
        "AAPL" 3 ""
      = (Except.ok (some 100), [1, 2]) ∧
    ¬ (StockFetcher.get_stock_price
        { use_web_scraping := false, has_web_scraper := false } envFailTwice
        "AAPL" 3 "").2.getLast? = some 4 := by
  refine ⟨rfl, ?_⟩
  have h2 : (StockFetcher.get_stock_price
      { use_web_scraping := false, has_web_scraper := false } envFailTwice
      "AAPL" 3 "").2.getLast? = some 2 := rfl
  rw [h2]
  decide

theorem apiLoopGo_run (env : TickerEnv) (rc : ℕ) (v : ℚ) :
    ∀ (k a fuel : ℕ) (sleeps : List ℕ), a + fuel = rc → a + k < rc →
      (∀ i, i < k → apiAttempt env (a + i) = none) →
      apiAttempt env (a + k) = some v →
      apiLoopGo env rc fuel a sleeps
        = (some v, sleeps ++ (List.range k).map (fun i => 2 ^ (a + i)))
  | 0, a, fuel, sleeps => by
      intro hfuel hlt hfail hsucc
      obtain ⟨f, rfl⟩ : ∃ f, fuel = f + 1 := ⟨fuel - 1, by omega⟩
      simp only [Nat.add_zero] at hsucc
      simp [apiLoopGo, hsucc]
  | k + 1, a, fuel, sleeps => by
      intro hfuel hlt hfail hsucc
      obtain ⟨f, rfl⟩ : ∃ f, fuel = f + 1 := ⟨fuel - 1, by omega⟩
      have h0 : apiAttempt env a = none := by simpa using hfail 0 (by omega)
      have hsl : a < rc - 1 := by omega
      have ih := apiLoopGo_run env rc v k (a + 1) f (sleeps ++ [2 ^ a])
        (by omega) (by omega)
        (fun i hi => by
          have := hfail (i + 1) (by omega)
          simpa [Nat.add_assoc, Nat.add_comm 1 i] using this)
        (by simpa [Nat.add_assoc, Nat.add_comm 1 k] using hsucc)
      simp only [apiLoopGo, h0, if_pos hsl, ih]
      have hfun : (List.range (k + 1)).map (fun i => 2 ^ (a + i))
          = 2 ^ a :: (List.range k).map (fun i => 2 ^ (a + 1 + i)) := by
        rw [List.range_succ_eq_map, List.map_cons, List.map_map]
        refine congrArg₂ _ (by rw [Nat.add_zero]) (List.map_congr_left ?_)
        intro i hi
        simp only [Function.comp_apply]
        congr 1
        omega
      rw [hfun]
      simp

/-- Claim C4, amended: when an attempt yields nothing and attempts remain, the
sleep before the next attempt is `2 ^ attempt` seconds (1 s, 2 s, 4 s, …);
with `retry_count = 3` and a source failing twice then succeeding, the fetch
returns the successful value and the recorded sleeps are
`[2 ^ 0, 2 ^ 1] = [1, 2]` — a 2-second (not 4-second) wait before the 3rd
attempt. -/
theorem get_stock_price_backoff (st : FetcherState) (env : TickerEnv)
    (symbol name : String) (retry_count k : ℕ) (v : ℚ)
    (hws : st.use_web_scraping = false)
    (hk : k < retry_count)
    (hfail : ∀ i, i < k → apiAttempt env i = none)
    (hsucc : apiAttempt env k = some v) :
    StockFetcher.get_stock_price st env symbol retry_count name
      = (Except.ok (some v), (List.range k).map (fun i => 2 ^ i)) := by
  have h := apiLoopGo_run env retry_count v k 0 retry_count []
    (by omega) (by omega) (fun i hi => by simpa using hfail i hi)
    (by simpa using hsucc)
  simp only [StockFetcher.get_stock_price, hws, Bool.false_and, Bool.false_eq_true,
    if_false, h]
  simp

/-- Witness for the amended C4 at the P5 scenario: two failing attempts, then
success with value 100, gives sleeps `[1, 2]`. -/
theorem get_stock_price_backoff_witness :
    StockFetcher.get_stock_price
        { use_web_scraping := false, has_web_scraper := false } envFailTwice
        "AAPL" 3 ""
      = (Except.ok (some 100), [1, 2]) := by
  have h := get_stock_price_backoff
    { use_web_scraping := false, has_web_scraper := false } envFailTwice
    "AAPL" "" 3 2 100 rfl (by norm_num)
    (by intro i hi; interval_cases i <;> rfl) rfl
  have h2 : (List.range 2).map (fun i => 2 ^ i) = [1, 2] := by decide
  rw [h, h2]

/-- Claim C9: a `check_thresholds` call leaves the checker object and the
prices dict unchanged, and a second call on the state left by the first
returns the same ordered violation list. -/
theorem check_thresholds_idempotent (c : CheckerState)
    (prices : List (String × Option ℚ)) :
    (check_thresholds_call c prices).2.1 = c ∧
    (check_thresholds_call c prices).2.2 = prices ∧
    (check_thresholds_call (check_thresholds_call c prices).2.1
        (check_thresholds_call c prices).2.2).1
      = (check_thresholds_call c prices).1 := by
  simp [check_thresholds_call, checkGoSt_eq]

/-! ### Helper lemmas and claims about the batch fetcher -/

theorem dictLookup_dictInsert {α : Type} (d : List (String × α)) (k k' : String)
    (v : α) :
    dictLookup (dictInsert d k v) k' = if k = k' then some v else dictLookup d k' := by
  induction d with
  | nil => by_cases h : k = k' <;> simp [dictInsert, dictLookup, h]
  | cons kv rest ih =>
      obtain ⟨k0, v0⟩ := kv
      by_cases h0 : k0 = k
      · subst h0
        by_cases h' : k0 = k' <;> simp [dictInsert, dictLookup, h']
      · by_cases h' : k0 = k'
        · subst h'
          have hne : ¬ k = k0 := fun he => h0 he.symm
          simp [dictInsert, dictLookup, h0, hne]
        · simp [dictInsert, dictLookup, h0, h', ih]

theorem mem_dictInsert_keys {α : Type} (d : List (String × α)) (k k' : String)
    (v : α) :
    k' ∈ (dictInsert d k v).map Prod.fst ↔ k' ∈ d.map Prod.fst ∨ k' = k := by
  induction d with
  | nil => simp [dictInsert]
  | cons kv rest ih =>
      obtain ⟨k0, v0⟩ := kv
      by_cases h0 : k0 = k
      · subst h0
        simp [dictInsert]
        tauto
      · simp [dictInsert, h0, ih]
        tauto

theorem dictInsert_keys_of_mem {α : Type} (d : List (String × α)) (k : String)
    (v : α) (h : k ∈ d.map Prod.fst) :
    (dictInsert d k v).map Prod.fst = d.map Prod.fst := by
  induction d with
  | nil => simp at h
  | cons kv rest ih =>
      obtain ⟨k0, v0⟩ := kv
      by_cases h0 : k0 = k
      · simp [dictInsert, h0]
      · have hk : k ∈ rest.map Prod.fst := by
          simp only [List.map_cons, List.mem_cons] at h
          rcases h with h1 | h1
          · exact absurd h1.symm h0
          · exact h1
        simp [dictInsert, h0, ih hk]

theorem dictInsert_keys_of_not_mem {α : Type} (d : List (String × α)) (k : String)
    (v : α) (h : k ∉ d.map Prod.fst) :
    (dictInsert d k v).map Prod.fst = d.map Prod.fst ++ [k] := by
  induction d with
  | nil => simp [dictInsert]
  | cons kv rest ih =>
      obtain ⟨k0, v0⟩ := kv
      have h0 : ¬ k0 = k := fun he => h (by simp [he])
      have hk : k ∉ rest.map Prod.fst := fun hm => h (by simp [hm])
      simp [dictInsert, h0, ih hk]

theorem getMultiplePricesGo_trace (f : ℕ → String → Option ℚ) (total : ℕ) :
    ∀ (l : List String) (i : ℕ) (d : List (String × Option ℚ)),
      (StockFetcher.getMultiplePricesGo f total l i d).2.2 = l
  | [], i, d => rfl
  | s :: rest, i, d => by
      simp [StockFetcher.getMultiplePricesGo,
        getMultiplePricesGo_trace f total rest (i + 1) _]

theorem getMultiplePricesGo_sleeps (f : ℕ → String → Option ℚ) (total : ℕ) :
    ∀ (l : List String) (i : ℕ) (d : List (String × Option ℚ)),
      i + l.length = total →
      (StockFetcher.getMultiplePricesGo f total l i d).2.1 = l.length - 1
  | [], i, d => fun _ => rfl
  | s :: rest, i, d => by
      intro htot
      simp only [List.length_cons] at htot
      have ih := getMultiplePricesGo_sleeps f total rest (i + 1)
        (dictInsert d s (f i s)) (by omega)
      by_cases hlt : i < total - 1
      · simp only [StockFetcher.getMultiplePricesGo, ih, if_pos hlt, List.length_cons]
        omega
      · simp only [StockFetcher.getMultiplePricesGo, ih, if_neg hlt, List.length_cons]
        omega

theorem getMultiplePricesGo_keys_mem (f : ℕ → String → Option ℚ) (total : ℕ) :
    ∀ (l : List String) (i : ℕ) (d : List (String × Option ℚ)) (s : String),
      (s ∈ ((StockFetcher.getMultiplePricesGo f total l i d).1).map Prod.fst ↔
        s ∈ d.map Prod.fst ∨ s ∈ l)
  | [], i, d, s => by simp [StockFetcher.getMultiplePricesGo]
  | x :: rest, i, d, s => by
      have ih := getMultiplePricesGo_keys_mem f total rest (i + 1)
        (dictInsert d x (f i x)) s
      simp only [StockFetcher.getMultiplePricesGo, ih, mem_dictInsert_keys,
        List.mem_cons]
      tauto

theorem getMultiplePricesGo_keys_nodup (f : ℕ → String → Option ℚ) (total : ℕ) :
    ∀ (l : List String) (i : ℕ) (d : List (String × Option ℚ)),
      ((d.map Prod.fst).Nodup) →
      (((StockFetcher.getMultiplePricesGo f total l i d).1).map Prod.fst).Nodup
  | [], i, d => fun h => h
  | x :: rest, i, d => by
      intro h
      refine getMultiplePricesGo_keys_nodup f total rest (i + 1)
        (dictInsert d x (f i x)) ?_
      by_cases hx : x ∈ d.map Prod.fst
      · rw [dictInsert_keys_of_mem d x _ hx]; exact h
      · rw [dictInsert_keys_of_not_mem d x _ hx]
        simp [List.nodup_append, h, hx]

theorem getMultiplePricesGo_lookup (f : ℕ → String → Option ℚ) (total : ℕ) :
    ∀ (l : List String) (i : ℕ) (d : List (String × Option ℚ)) (s : String),
      dictLookup (StockFetcher.getMultiplePricesGo f total l i d).1 s
        = match lastIdxFrom l i s with
          | some j => some (f j s)
          | none => dictLookup d s
  | [], i, d, s => by simp [StockFetcher.getMultiplePricesGo, lastIdxFrom]
  | x :: rest, i, d, s => by
      have ih := getMultiplePricesGo_lookup f total rest (i + 1)
        (dictInsert d x (f i x)) s
      simp only [StockFetcher.getMultiplePricesGo, lastIdxFrom]
      rw [ih]
      cases hrest : lastIdxFrom rest (i + 1) s with
      | some j => rfl
      | none =>
          by_cases hx : x = s
          · subst hx
            simp [dictLookup_dictInsert]
          · simp [dictLookup_dictInsert, hx]

theorem getMultiplePricesGo_keys_ordered (f : ℕ → String → Option ℚ) (total : ℕ) :
    ∀ (l : List String) (i : ℕ) (d : List (String × Option ℚ)),
      l.Nodup → (∀ s ∈ l, s ∉ d.map Prod.fst) →
      ((StockFetcher.getMultiplePricesGo f total l i d).1).map Prod.fst
        = d.map Prod.fst ++ l
  | [], i, d => by simp [StockFetcher.getMultiplePricesGo]
  | x :: rest, i, d => by
      intro hnd hdisj
      have hx : x ∉ d.map Prod.fst := hdisj x (List.mem_cons_self x rest)
      have ih := getMultiplePricesGo_keys_ordered f total rest (i + 1)
        (dictInsert d x (f i x)) (List.Nodup.of_cons hnd) ?_
      · simp only [StockFetcher.getMultiplePricesGo, ih,
          dictInsert_keys_of_not_mem d x _ hx]
        simp
      · intro s hs
        rw [dictInsert_keys_of_not_mem d x _ hx]
        simp only [List.mem_append, List.mem_singleton]
        rintro (h1 | rfl)
        · exact hdisj s (List.mem_cons_of_mem x hs) h1
        · exact (List.nodup_cons.mp hnd).1 hs

/-- Claim C7: on a sequence of `N` (pairwise distinct, per the data model's
unique-symbol invariant) symbols, `get_multiple_prices` performs exactly
`N - 1` pacing sleeps and returns a dict whose keys are exactly the input
symbols, in order — in particular every input symbol is present — for every
per-call result oracle, including the one where every fetch fails. -/
theorem get_multiple_prices_pacing (fetchOne : ℕ → String → Option ℚ)
    (symbols : List String) (hnd : symbols.Nodup) :
    (StockFetcher.get_multiple_prices fetchOne symbols).2.1 = symbols.length - 1 ∧
    ((StockFetcher.get_multiple_prices fetchOne symbols).1).map Prod.fst = symbols := by
  constructor
  · exact getMultiplePricesGo_sleeps fetchOne symbols.length symbols 0 [] (by simp)
  · simpa using getMultiplePricesGo_keys_ordered fetchOne symbols.length symbols 0 []
      hnd (by simp)

/-- Witness for C7: three distinct symbols, every fetch failing, give two
pacing sleeps and the three symbols as keys. -/
theorem get_multiple_prices_pacing_witness :
    (StockFetcher.get_multiple_prices (fun _ _ => none) ["AAPL", "MSFT", "GOOG"]).2.1
      = 2 ∧
    ((StockFetcher.get_multiple_prices (fun _ _ => none)
        ["AAPL", "MSFT", "GOOG"]).1).map Prod.fst = ["AAPL", "MSFT", "GOOG"] := by
  have h := get_multiple_prices_pacing (fun _ _ => none) ["AAPL", "MSFT", "GOOG"]
    (by decide)
  simpa using h

/-- Claim C10: with duplicate symbols in the input, every occurrence is
fetched (the fetch trace is the input list), the returned dict has one key per
distinct symbol — strictly fewer keys than input entries when a duplicate
exists — and the value stored for a symbol is the result of the fetch at its
last occurrence. -/
theorem get_multiple_prices_duplicates (fetchOne : ℕ → String → Option ℚ)
    (symbols : List String) :
    (StockFetcher.get_multiple_prices fetchOne symbols).2.2 = symbols ∧
    (((StockFetcher.get_multiple_prices fetchOne symbols).1).map Prod.fst).Nodup ∧
    (∀ s, s ∈ ((StockFetcher.get_multiple_prices fetchOne symbols).1).map Prod.fst ↔
      s ∈ symbols) ∧
    (¬ symbols.Nodup →
      (((StockFetcher.get_multiple_prices fetchOne symbols).1).map Prod.fst).length
        < symbols.length) ∧
    (∀ s j, lastIdxFrom symbols 0 s = some j →
      dictLookup (StockFetcher.get_multiple_prices fetchOne symbols).1 s
        = some (fetchOne j s)) := by
  refine ⟨getMultiplePricesGo_trace fetchOne symbols.length symbols 0 [],
    getMultiplePricesGo_keys_nodup fetchOne symbols.length symbols 0 [] (by simp),
    fun s => by
      simpa using getMultiplePricesGo_keys_mem fetchOne symbols.length symbols 0 [] s,
    fun hdup => ?_, fun s j hj => ?_⟩
  · set keys := ((StockFetcher.get_multiple_prices fetchOne symbols).1).map Prod.fst
      with hkeys
    have hknd : keys.Nodup :=
      getMultiplePricesGo_keys_nodup fetchOne symbols.length symbols 0 [] (by simp)
    have hmem : ∀ s, s ∈ keys ↔ s ∈ symbols := fun s => by
      simpa [hkeys] using
        getMultiplePricesGo_keys_mem fetchOne symbols.length symbols 0 [] s
    have hperm : keys.Perm symbols.dedup := by
      apply List.perm_of_nodup_nodup_toFinset_eq hknd (List.nodup_dedup symbols)
      ext s
      simp [List.mem_toFinset, List.mem_dedup, hmem s]
    have hsl : symbols.dedup.Sublist symbols := List.dedup_sublist symbols
    have hle : symbols.dedup.length ≤ symbols.length := hsl.length_le
    rcases lt_or_eq_of_le hle with hcase | hcase
    · have hlen := hperm.length_eq
      omega
    · exact absurd (by rw [← hsl.eq_of_length hcase]; exact List.nodup_dedup symbols) hdup
  · simp only [StockFetcher.get_multiple_prices,
      getMultiplePricesGo_lookup fetchOne symbols.length symbols 0 [] s, hj]

/-- Witness for C10 on `["AAPL", "AAPL"]` with an oracle returning the call
index: the dict has fewer keys than input entries and stores the second
call's value. -/
theorem get_multiple_prices_duplicates_witness :
    (((StockFetcher.get_multiple_prices (fun i _ => some (i : ℚ))
        ["AAPL", "AAPL"]).1).map Prod.fst).length < 2 ∧
    dictLookup (StockFetcher.get_multiple_prices (fun i _ => some (i : ℚ))
        ["AAPL", "AAPL"]).1 "AAPL" = some (some 1) := by
  have h := get_multiple_prices_duplicates (fun i _ => some (i : ℚ)) ["AAPL", "AAPL"]
  refine ⟨by simpa using h.2.2.2.1 (by decide), ?_⟩
  have h2 := h.2.2.2.2 "AAPL" 1 (by decide)
  simpa using h2

end StockTracker
